import Mathlib

/-!
Verification of the meeting-recordings aggregation backend (`_worker.js`).

The development shallowly embeds the code of `handleGetMeetingRecordings`
and its helpers (`getHostInfo`, `attachHostsToRecordings`, the throttled
worker pool, the search filters and the response assembly) as executable
Lean definitions.  Network effects are modelled by outcome oracles: a
function from the queried key (user id / host id) to the upstream outcome
(thrown error, HTTP response with status and parse result).  The
cooperative worker pool is modelled as a small-step state machine whose
scheduler choice (which worker runs next) is an arbitrary list of worker
indices, so theorems about it quantify over every interleaving.
-/

/-! ## Strings: JS `toLowerCase` and `String.prototype.includes` -/

/-- JS `s.toLowerCase()` (character-wise lowering, kernel-reducible). -/
def lowerStr (s : String) : String := ⟨s.data.map Char.toLower⟩

/-- JS `s.trim()`: strip whitespace from both ends (kernel-reducible). -/
def jsTrim (s : String) : String :=
  ⟨((s.data.dropWhile Char.isWhitespace).reverse.dropWhile Char.isWhitespace).reverse⟩

/-- Whether the second list of characters occurs at the start of the first. -/
def startsWithChars : List Char → List Char → Bool
  | _, [] => true
  | [], _ :: _ => false
  | a :: as, b :: bs => a = b && startsWithChars as bs

/-- Whether the second list occurs contiguously anywhere inside the first. -/
def containsChars : List Char → List Char → Bool
  | [], sub => sub.isEmpty
  | a :: t, sub => startsWithChars (a :: t) sub || containsChars t sub

/-- JS `s.includes(sub)`: substring containment on strings. -/
def strContains (s sub : String) : Bool :=
  containsChars s.data sub.data

/-! ## Data model (fields as produced/consumed by `_worker.js`) -/

/-- One entry of a meeting's `recording_files` array (the trimmed shape the
worker forwards: lines 566-577 of `_worker.js`). -/
structure RecFile where
  id : String
  file_type : String
  file_extension : String
  file_size : Nat
  recording_type : String
  recording_start : String
  recording_end : String
  play_url : String
  download_url : String
  status : String
deriving DecidableEq

/-- An upstream meeting object from the per-user cloud-recordings listing. -/
structure RawMeeting where
  account_id : String
  duration : Nat
  host_id : String
  id : Nat
  uuid : String
  topic : String
  start_time : String
  recording_count : Nat
  total_size : Nat
  type : Nat
  auto_delete : Bool
  auto_delete_date : String
  recording_play_passcode : String
  recording_files : List RecFile
deriving DecidableEq

/-- An entry of the tenant `/users` listing. -/
structure User where
  id : String
  email : String
  first_name : String
  last_name : String
  status : String
  type : Nat
deriving DecidableEq

/-- The record the worker pushes into the shared `meetings` list
(lines 536-578 of `_worker.js`): the upstream meeting fields plus the
owner tags and derived primary-file fields. -/
structure TaggedMeeting where
  account_id : String
  duration : Nat
  host_id : String
  id : Nat
  uuid : String
  topic : String
  start_time : String
  recording_count : Nat
  total_size : Nat
  type : Nat
  auto_delete : Bool
  auto_delete_date : String
  autoDelete : Bool
  autoDeleteDate : String
  recording_play_passcode : String
  owner_email : String
  owner_name : String
  primary_file_type : Option String
  primary_file_extension : Option String
  recording_files : List RecFile
deriving DecidableEq

/-- A meeting after host enrichment: `{...m, hostName, hostEmail}`. -/
structure EnrichedMeeting where
  base : TaggedMeeting
  hostName : String
  hostEmail : String
deriving DecidableEq

/-- `ownerName` as computed by the worker:
`` `${user.first_name ?? ""} ${user.last_name ?? ""}`.trim() || user.email || "Unknown" ``. -/
def ownerNameOf (u : User) : String :=
  let n := jsTrim (u.first_name ++ " " ++ u.last_name)
  if n = "" then (if u.email = "" then "Unknown" else u.email) else n

/-- JS `files[0] || null` followed by `primary?.f || null` (falsy fold). -/
def primaryField (files : List RecFile) (f : RecFile → String) : Option String :=
  match files with
  | [] => none
  | x :: _ => if f x = "" then none else some (f x)

/-- The worker's `meetings.push({...})` payload for one upstream meeting of
one enumerated user (lines 532-579 of `_worker.js`). -/
def tagMeeting (u : User) (m : RawMeeting) : TaggedMeeting :=
  { account_id := m.account_id
    duration := m.duration
    host_id := m.host_id
    id := m.id
    uuid := m.uuid
    topic := m.topic
    start_time := m.start_time
    recording_count := m.recording_count
    total_size := m.total_size
    type := m.type
    auto_delete := m.auto_delete
    auto_delete_date := m.auto_delete_date
    autoDelete := m.auto_delete
    autoDeleteDate := m.auto_delete_date
    recording_play_passcode := m.recording_play_passcode
    owner_email := u.email
    owner_name := ownerNameOf u
    primary_file_type := primaryField m.recording_files (fun f => f.file_type)
    primary_file_extension := primaryField m.recording_files (fun f => f.file_extension)
    recording_files := m.recording_files.map (fun f =>
      { id := f.id, file_type := f.file_type, file_extension := f.file_extension
        file_size := f.file_size, recording_type := f.recording_type
        recording_start := f.recording_start, recording_end := f.recording_end
        play_url := f.play_url, download_url := f.download_url, status := f.status }) }

/-! ## ResultFilter (lines 620-647 of `_worker.js`) -/

/-- The free-text search bag:
`[topic, owner_email, owner_name, host_id, hostName, hostEmail].join(" ")`. -/
def searchBag (m : EnrichedMeeting) : String :=
  String.intercalate " "
    [m.base.topic, m.base.owner_email, m.base.owner_name, m.base.host_id,
     m.hostName, m.hostEmail]

/-- The backend search filters.  The raw query parameters are lowercased on
extraction (lines 382-384) and each non-empty filter narrows `filtered`
by case-insensitive substring containment (lines 620-647). -/
def applyFilters (rawOwner rawTopic rawQ : String) (ms : List EnrichedMeeting) :
    List EnrichedMeeting :=
  let ownerF := (lowerStr rawOwner)
  let topicF := (lowerStr rawTopic)
  let qF := (lowerStr rawQ)
  let f1 := if ownerF = "" then ms else
    ms.filter (fun m => strContains (lowerStr m.base.owner_email) ownerF)
  let f2 := if topicF = "" then f1 else
    f1.filter (fun m => strContains (lowerStr m.base.topic) topicF)
  if qF = "" then f2 else
    f2.filter (fun m => strContains (lowerStr (searchBag m)) qF)

/-- The per-record predicate that `applyFilters` is proved to implement:
each present (non-empty) filter is a case-insensitive substring test on its
field, the free-text filter tests the joined search bag, and the present
filters are conjoined. -/
def meetingPasses (rawOwner rawTopic rawQ : String) (m : EnrichedMeeting) : Bool :=
  (((lowerStr rawOwner) == "" || strContains (lowerStr m.base.owner_email) (lowerStr rawOwner)) &&
   ((lowerStr rawTopic) == "" || strContains (lowerStr m.base.topic) (lowerStr rawTopic))) &&
  ((lowerStr rawQ) == "" || strContains (lowerStr (searchBag m)) (lowerStr rawQ))

theorem filter_emptyOpt {α : Type} (s : String) (p : α → Bool) (l : List α) :
    (if s = "" then l else l.filter p) = l.filter (fun a => (s == "" || p a)) := by
  by_cases h : s = ""
  · simp [h]
  · simp only [if_neg h]
    have : (s == "") = false := by simpa using h
    simp [this]

/-- C3: with all filters absent the filter is the identity, and in general
the three sequential filters keep exactly the records satisfying the
conjunction of the per-field case-insensitive substring tests. -/
theorem resultFilter_identity_and_conjunction
    (ms : List EnrichedMeeting) (rawOwner rawTopic rawQ : String) :
    applyFilters "" "" "" ms = ms ∧
    applyFilters rawOwner rawTopic rawQ ms =
      ms.filter (meetingPasses rawOwner rawTopic rawQ) := by
  have main : ∀ o t q (l : List EnrichedMeeting),
      applyFilters o t q l = l.filter (meetingPasses o t q) := by
    intro o t q l
    unfold applyFilters
    rw [filter_emptyOpt, filter_emptyOpt, filter_emptyOpt, List.filter_filter,
      List.filter_filter]
    refine List.filter_congr (fun m _ => ?_)
    unfold meetingPasses
    generalize (lowerStr o == "" || strContains (lowerStr m.base.owner_email) (lowerStr o)) = bo
    generalize (lowerStr t == "" || strContains (lowerStr m.base.topic) (lowerStr t)) = bt
    generalize (lowerStr q == "" || strContains (lowerStr (searchBag m)) (lowerStr q)) = bq
    cases bo <;> cases bt <;> cases bq <;> rfl
  refine ⟨?_, main _ _ _ _⟩
  rw [main]
  have h : ∀ m : EnrichedMeeting, meetingPasses "" "" "" m = true := by
    intro m
    unfold meetingPasses
    have : (lowerStr "" == "") = true := by decide
    simp [this]
  calc ms.filter (meetingPasses "" "" "")
      = ms.filter (fun _ => true) := List.filter_congr (fun m _ => h m)
    _ = ms := List.filter_true ms

/-! ## HostDirectoryCache (`getHostInfo`, lines 20-63 of `_worker.js`) -/

/-- A resolved host identity `{name, email}`. -/
structure HostIdentity where
  name : String
  email : String
deriving DecidableEq

/-- The `{name: "Unknown", email: ""}` fallback. -/
def hostFallback : HostIdentity := ⟨"Unknown", ""⟩

/-- The module-level `hostCache` Map, as an association list (inserted on
first resolution only, so at most one entry per id). -/
abbrev HostCache := List (String × HostIdentity)

/-- The parsed body of a `/users/{id}` lookup (`??`/`||` fallbacks folded
into plain strings). -/
structure HostData where
  first_name : String
  last_name : String
  email : String
deriving DecidableEq

instance {ε α : Type} [DecidableEq ε] [DecidableEq α] : DecidableEq (Except ε α) := fun a b =>
  match a, b with
  | .error x, .error y =>
    match decEq x y with
    | isTrue h => isTrue (h ▸ rfl)
    | isFalse h => isFalse (fun hc => h (Except.error.inj hc))
  | .error _, .ok _ => isFalse (fun hc => Except.noConfusion hc)
  | .ok _, .error _ => isFalse (fun hc => Except.noConfusion hc)
  | .ok x, .ok y =>
    match decEq x y with
    | isTrue h => isTrue (h ▸ rfl)
    | isFalse h => isFalse (fun hc => h (Except.ok.inj hc))

/-- Upstream outcome of one `fetch` of `/users/{hostId}`: the fetch throws,
or returns a response with an ok-flag, status, body text, and the result of
`res.json()` (`Except.error` = the json parse throws). -/
inductive HostFetchOutcome where
  | thrown (msg : String)
  | resp (ok : Bool) (status : Nat) (text : String) (parsed : Except String HostData)
deriving DecidableEq

/-- Result of one `getHostInfo` call: the returned identity, the host cache
after the call, and whether a real network fetch was issued. -/
structure HostRes where
  identity : HostIdentity
  cache : HostCache
  called : Bool

/-- `getHostInfo(hostId, accessToken)`.  Empty id short-circuits to the
fallback without caching; a cache hit returns the cached entry; otherwise
one fetch is issued and every failure branch (thrown, non-2xx, json throw)
returns and caches the fallback, while success caches the derived name and
email. -/
def getHostInfo (hostId : String) (cache : HostCache) (f : String → HostFetchOutcome) :
    HostRes :=
  if hostId = "" then ⟨hostFallback, cache, false⟩
  else
    match cache.lookup hostId with
    | some h => ⟨h, cache, false⟩
    | none =>
      match f hostId with
      | .thrown _ => ⟨hostFallback, (hostId, hostFallback) :: cache, true⟩
      | .resp ok _ _ parsed =>
        if ok then
          match parsed with
          | .error _ => ⟨hostFallback, (hostId, hostFallback) :: cache, true⟩
          | .ok d =>
            let nm := jsTrim (d.first_name ++ " " ++ d.last_name)
            let host : HostIdentity := ⟨if nm = "" then "Unknown" else nm, d.email⟩
            ⟨host, (hostId, host) :: cache, true⟩
        else ⟨hostFallback, (hostId, hostFallback) :: cache, true⟩

/-- Whether a host lookup outcome is a failure (thrown, non-2xx, or json
parse throw) — every such branch of `getHostInfo` falls back to Unknown. -/
def hostOutcomeFails : HostFetchOutcome → Bool
  | .thrown _ => true
  | .resp ok _ _ parsed => !ok || (match parsed with | .error _ => true | .ok _ => false)

/-! ## ResultEnricher (`attachHostsToRecordings`, lines 69-91) -/

/-- JS `[...new Set(l)]`: deduplication keeping first occurrences. -/
def dedupFirst : List String → List String
  | [] => []
  | x :: xs => x :: (dedupFirst xs).filter (fun y => !(y == x))

/-- `uniqueHostIds`: the distinct non-empty `host_id`s of the meetings
(`[...new Set(meetings.map(m => m.host_id).filter(Boolean))]`). -/
def uniqueHostIds (ms : List TaggedMeeting) : List String :=
  dedupFirst ((ms.map (fun m => m.host_id)).filter (fun h => !(h == "")))

/-- The cache pre-warm pass: resolve every id, threading the cache and
counting real network fetches.  (The JS issues these `getHostInfo` calls
under `Promise.all`; as the ids are pairwise distinct, each call touches a
distinct cache key, so the cooperative interleaving is equivalent to this
sequential threading.) -/
def prewarm (f : String → HostFetchOutcome) : List String → HostCache → HostCache × Nat
  | [], c => (c, 0)
  | i :: ids, c =>
    let r := getHostInfo i c f
    let rest := prewarm f ids r.cache
    (rest.1, (if r.called then 1 else 0) + rest.2)

/-- Result of the enrichment: the enriched meetings, the final host cache
and the number of real network fetches issued. -/
structure AttachOut where
  enriched : List EnrichedMeeting
  cache : HostCache
  calls : Nat
deriving DecidableEq

/-- The per-meeting attachment pass: `meetings.map(async m => {...m,
hostName, hostEmail})`, threading the cache and counting fetches. -/
def attachPass (f : String → HostFetchOutcome) :
    List TaggedMeeting → HostCache → AttachOut
  | [], c => ⟨[], c, 0⟩
  | m :: rest, c =>
    let r := getHostInfo m.host_id c f
    let out := attachPass f rest r.cache
    ⟨⟨m, r.identity.name, r.identity.email⟩ :: out.enriched, out.cache,
      (if r.called then 1 else 0) + out.calls⟩

/-- `attachHostsToRecordings(meetings, accessToken)`: empty input returns
`[]`; otherwise pre-warm the cache for the distinct non-empty host ids,
then attach `hostName`/`hostEmail` to every meeting. -/
def attachHostsToRecordings (ms : List TaggedMeeting) (c0 : HostCache)
    (f : String → HostFetchOutcome) : AttachOut :=
  if ms.isEmpty then ⟨[], c0, 0⟩
  else
    let pw := prewarm f (uniqueHostIds ms) c0
    let ap := attachPass f ms pw.1
    ⟨ap.enriched, ap.cache, pw.2 + ap.calls⟩

/-- Pure cache read used to state what enrichment attaches: empty id maps
to the fallback, otherwise the cached identity (the fallback default is
dead code once the cache is warm). -/
def hostOf (c : HostCache) (h : String) : HostIdentity :=
  if h = "" then hostFallback else (c.lookup h).getD hostFallback

/-- The attachment a warm cache produces for one meeting. -/
def enrichPure (c : HostCache) (m : TaggedMeeting) : EnrichedMeeting :=
  ⟨m, (hostOf c m.host_id).name, (hostOf c m.host_id).email⟩

/-! ### Cache lemmas -/

theorem lookup_cons_self (k : String) (v : HostIdentity) (c : HostCache) :
    ((k, v) :: c).lookup k = some v := by
  simp [List.lookup]

theorem lookup_cons_other {k i : String} (hne : k ≠ i) (v : HostIdentity) (c : HostCache) :
    ((i, v) :: c).lookup k = c.lookup k := by
  have hb : (k == i) = false := by simpa using hne
  simp [List.lookup, hb]

theorem getHostInfo_hit {hostId : String} {c : HostCache} {h : HostIdentity}
    (hid : hostId ≠ "") (hc : c.lookup hostId = some h)
    (f : String → HostFetchOutcome) :
    getHostInfo hostId c f = ⟨h, c, false⟩ := by
  simp [getHostInfo, hid, hc]

theorem getHostInfo_miss {hostId : String} {c : HostCache}
    (hid : hostId ≠ "") (hc : c.lookup hostId = none)
    (f : String → HostFetchOutcome) :
    ∃ x, getHostInfo hostId c f = ⟨x, (hostId, x) :: c, true⟩ := by
  unfold getHostInfo
  rw [if_neg hid, hc]
  cases hf : f hostId with
  | thrown m => exact ⟨hostFallback, rfl⟩
  | resp ok st text parsed =>
    cases ok with
    | false => exact ⟨hostFallback, rfl⟩
    | true =>
      cases parsed with
      | error m => exact ⟨hostFallback, rfl⟩
      | ok d => exact ⟨_, rfl⟩

theorem getHostInfo_lookup_self {hostId : String} (hid : hostId ≠ "")
    (c : HostCache) (f : String → HostFetchOutcome) :
    (getHostInfo hostId c f).cache.lookup hostId =
      some (getHostInfo hostId c f).identity := by
  cases hc : c.lookup hostId with
  | some h => rw [getHostInfo_hit hid hc f]; exact hc
  | none =>
    obtain ⟨x, hx⟩ := getHostInfo_miss hid hc f
    rw [hx]
    exact lookup_cons_self hostId x c

theorem getHostInfo_lookup_other {hostId k : String} (hne : k ≠ hostId)
    (c : HostCache) (f : String → HostFetchOutcome) :
    (getHostInfo hostId c f).cache.lookup k = c.lookup k := by
  by_cases hid : hostId = ""
  · simp [getHostInfo, hid]
  cases hc : c.lookup hostId with
  | some h => rw [getHostInfo_hit hid hc f]
  | none =>
    obtain ⟨x, hx⟩ := getHostInfo_miss hid hc f
    rw [hx]
    exact lookup_cons_other hne x c

theorem getHostInfo_lookup_preserved {hostId k : String} {c : HostCache}
    {v : HostIdentity} (hk : c.lookup k = some v)
    (f : String → HostFetchOutcome) :
    (getHostInfo hostId c f).cache.lookup k = some v := by
  by_cases hne : k = hostId
  · subst hne
    by_cases hid : k = ""
    · simpa [getHostInfo, hid] using hk
    · rw [getHostInfo_hit hid hk f]; exact hk
  · rw [getHostInfo_lookup_other hne c f]; exact hk

theorem prewarm_lookup_preserved {k : String} {v : HostIdentity}
    (f : String → HostFetchOutcome) :
    ∀ (ids : List String) (c : HostCache), c.lookup k = some v →
      (prewarm f ids c).1.lookup k = some v
  | [], _, hk => hk
  | i :: ids, c, hk =>
    prewarm_lookup_preserved f ids (getHostInfo i c f).cache
      (getHostInfo_lookup_preserved hk f)

theorem prewarm_lookup_isSome {k : String} (hk : k ≠ "")
    (f : String → HostFetchOutcome) :
    ∀ (ids : List String) (c : HostCache), k ∈ ids →
      ((prewarm f ids c).1.lookup k).isSome
  | i :: ids, c, hmem => by
    rcases List.mem_cons.mp hmem with h | h
    · subst h
      have hs := getHostInfo_lookup_self hk c f
      have := prewarm_lookup_preserved f ids (getHostInfo k c f).cache hs
      simp only [prewarm]
      rw [this]
      rfl
    · exact prewarm_lookup_isSome hk f ids (getHostInfo i c f).cache h

theorem prewarm_calls (f : String → HostFetchOutcome) :
    ∀ (ids : List String) (c : HostCache), ids.Nodup → (∀ i ∈ ids, i ≠ "") →
      (prewarm f ids c).2 = (ids.filter (fun h => (c.lookup h).isNone)).length
  | [], _, _, _ => rfl
  | i :: ids, c, hnd, hne => by
    have hi : i ≠ "" := hne i (List.mem_cons_self i ids)
    have hnd' : ids.Nodup := (List.nodup_cons.mp hnd).2
    have hni : i ∉ ids := (List.nodup_cons.mp hnd).1
    cases hc : c.lookup i with
    | some h =>
      have hcall := getHostInfo_hit hi hc f
      simp only [prewarm, hcall]
      rw [prewarm_calls f ids c hnd' (fun j hj => hne j (List.mem_cons_of_mem i hj))]
      simp [List.filter_cons, hc]
    | none =>
      obtain ⟨x, hx⟩ := getHostInfo_miss hi hc f
      simp only [prewarm, hx]
      have hrec := prewarm_calls f ids ((i, x) :: c) hnd'
        (fun j hj => hne j (List.mem_cons_of_mem i hj))
      rw [hrec]
      have hcong : ids.filter (fun h => (((i, x) :: c).lookup h).isNone) =
          ids.filter (fun h => (c.lookup h).isNone) := by
        refine List.filter_congr (fun j hj => ?_)
        have : j ≠ i := fun hji => hni (hji ▸ hj)
        rw [lookup_cons_other this x c]
      rw [hcong]
      simp [List.filter_cons, hc]
      omega

theorem attachPass_warm (f : String → HostFetchOutcome) :
    ∀ (ms : List TaggedMeeting) (c : HostCache),
      (∀ m ∈ ms, m.host_id = "" ∨ (c.lookup m.host_id).isSome) →
      attachPass f ms c = ⟨ms.map (enrichPure c), c, 0⟩
  | [], _, _ => rfl
  | m :: ms, c, hwarm => by
    have hm := hwarm m (List.mem_cons_self m ms)
    have hrest : ∀ m_ ∈ ms, m_.host_id = "" ∨ (c.lookup m_.host_id).isSome :=
      fun m_ h => hwarm m_ (List.mem_cons_of_mem m h)
    by_cases h0 : m.host_id = ""
    · have hg : getHostInfo m.host_id c f = ⟨hostFallback, c, false⟩ := by
        simp [getHostInfo, h0]
      simp only [attachPass, hg, attachPass_warm f ms c hrest]
      simp [enrichPure, hostOf, h0]
    · have hsome : (c.lookup m.host_id).isSome := (hm.resolve_left h0)
      rw [Option.isSome_iff_exists] at hsome
      obtain ⟨h, hh⟩ := hsome
      have hg := getHostInfo_hit h0 hh f
      simp only [attachPass, hg, attachPass_warm f ms c hrest]
      simp [enrichPure, hostOf, h0, hh]

theorem mem_dedupFirst {y : String} : ∀ {l : List String}, y ∈ dedupFirst l ↔ y ∈ l
  | [] => Iff.rfl
  | x :: xs => by
    simp only [dedupFirst, List.mem_cons, List.mem_filter]
    by_cases hyx : y = x
    · simp [hyx]
    · have hb : (y == x) = false := by simpa using hyx
      simp [hyx, hb, mem_dedupFirst]

theorem dedupFirst_nodup : ∀ (l : List String), (dedupFirst l).Nodup
  | [] => List.nodup_nil
  | x :: xs => by
    simp only [dedupFirst]
    refine List.nodup_cons.mpr ⟨?_, List.Nodup.filter _ (dedupFirst_nodup xs)⟩
    intro hmem
    have := (List.mem_filter.mp hmem).2
    simp at this

theorem mem_uniqueHostIds {ms : List TaggedMeeting} {h : String} :
    h ∈ uniqueHostIds ms ↔ (h ≠ "" ∧ ∃ m ∈ ms, m.host_id = h) := by
  unfold uniqueHostIds
  rw [mem_dedupFirst, List.mem_filter]
  simp only [List.mem_map]
  constructor
  · rintro ⟨⟨m, hm, hh⟩, hne⟩
    refine ⟨by simpa using hne, m, hm, hh⟩
  · rintro ⟨hne, m, hm, hh⟩
    exact ⟨⟨m, hm, hh⟩, by simpa using hne⟩

/-- Characterization of `attachHostsToRecordings`: the enriched list is a
per-meeting pure attachment from the pre-warmed cache, the final cache is
the pre-warmed cache (the attachment pass never changes it), and the total
number of network fetches is the number of distinct non-empty host ids not
already cached. -/
theorem attachHosts_spec (ms : List TaggedMeeting) (c0 : HostCache)
    (f : String → HostFetchOutcome) :
    attachHostsToRecordings ms c0 f =
      ⟨ms.map (enrichPure (prewarm f (uniqueHostIds ms) c0).1),
       (prewarm f (uniqueHostIds ms) c0).1,
       ((uniqueHostIds ms).filter (fun h => (c0.lookup h).isNone)).length⟩ := by
  rcases ms with _ | ⟨m, rest⟩
  · rfl
  · set ms := m :: rest with hms
    have hne : ¬ms.isEmpty := by rw [hms]; simp
    have hnodup : (uniqueHostIds ms).Nodup := dedupFirst_nodup _
    have hnonempty : ∀ i ∈ uniqueHostIds ms, i ≠ "" :=
      fun i hi => (mem_uniqueHostIds.mp hi).1
    have hwarm : ∀ m_ ∈ ms, m_.host_id = "" ∨
        ((prewarm f (uniqueHostIds ms) c0).1.lookup m_.host_id).isSome := by
      intro m_ hm_
      by_cases h0 : m_.host_id = ""
      · exact Or.inl h0
      · refine Or.inr (prewarm_lookup_isSome h0 f _ c0 ?_)
        exact mem_uniqueHostIds.mpr ⟨h0, m_, hm_, rfl⟩
    unfold attachHostsToRecordings
    rw [if_neg hne]
    show AttachOut.mk (attachPass f ms (prewarm f (uniqueHostIds ms) c0).1).enriched
        (attachPass f ms (prewarm f (uniqueHostIds ms) c0).1).cache
        ((prewarm f (uniqueHostIds ms) c0).2 +
          (attachPass f ms (prewarm f (uniqueHostIds ms) c0).1).calls) = _
    rw [attachPass_warm f ms _ hwarm,
      prewarm_calls f (uniqueHostIds ms) c0 hnodup hnonempty]
    simp

/-- C7: enrichment computes the distinct non-empty host ids, pre-warms the
cache for them, and maps every meeting to a copy carrying `hostName` and
`hostEmail` read from the warm cache; the per-meeting attachment pass adds
no network calls, so the total fetch count is the number of distinct
not-yet-cached hosts (not the number of recordings). -/
theorem enrich_prewarm_and_call_count (ms : List TaggedMeeting) (c0 : HostCache)
    (f : String → HostFetchOutcome) :
    (attachHostsToRecordings ms c0 f).enriched =
      ms.map (enrichPure (prewarm f (uniqueHostIds ms) c0).1) ∧
    (attachHostsToRecordings ms c0 f).cache = (prewarm f (uniqueHostIds ms) c0).1 ∧
    (attachHostsToRecordings ms c0 f).calls =
      ((uniqueHostIds ms).filter (fun h => (c0.lookup h).isNone)).length := by
  rw [attachHosts_spec ms c0 f]
  exact ⟨rfl, rfl, rfl⟩

/-- C5: `getHostInfo` never throws (it is a total function into `HostRes`),
and on any lookup failure (thrown fetch, non-2xx, unparsable body) for an
uncached non-empty id it returns the `{name:"Unknown", email:""}` fallback,
stores it in the cache, and a repeat resolution of the same id is served
from the cache without touching the network. -/
theorem hostLookup_failure_falls_back_and_caches
    (hostId : String) (c : HostCache) (f : String → HostFetchOutcome)
    (hid : hostId ≠ "") (hmiss : c.lookup hostId = none)
    (hfail : hostOutcomeFails (f hostId) = true) :
    (getHostInfo hostId c f).identity = hostFallback ∧
    (getHostInfo hostId c f).cache.lookup hostId = some hostFallback ∧
    (getHostInfo hostId c f).called = true ∧
    (getHostInfo hostId (getHostInfo hostId c f).cache f).called = false ∧
    (getHostInfo hostId (getHostInfo hostId c f).cache f).identity = hostFallback := by
  have hres : getHostInfo hostId c f = ⟨hostFallback, (hostId, hostFallback) :: c, true⟩ := by
    unfold getHostInfo
    rw [if_neg hid, hmiss]
    cases hf : f hostId with
    | thrown m => rfl
    | resp ok st text parsed =>
      cases ok with
      | false => rfl
      | true =>
        cases parsed with
        | error m => rfl
        | ok d => simp [hostOutcomeFails, hf] at hfail
  have hlook : ((hostId, hostFallback) :: c).lookup hostId = some hostFallback :=
    lookup_cons_self hostId hostFallback c
  have hsecond : getHostInfo hostId ((hostId, hostFallback) :: c) f =
      ⟨hostFallback, (hostId, hostFallback) :: c, false⟩ :=
    getHostInfo_hit hid hlook f
  simp [hres, hsecond, hlook]

theorem dedupFirst_const {x : String} : ∀ {l : List String}, l ≠ [] →
    (∀ y ∈ l, y = x) → dedupFirst l = [x]
  | [], h, _ => absurd rfl h
  | a :: t, _, hall => by
    have ha : a = x := hall a (List.mem_cons_self a t)
    subst ha
    simp only [dedupFirst]
    have : (dedupFirst t).filter (fun y => !(y == a)) = [] := by
      rw [List.filter_eq_nil_iff]
      intro y hy
      have : y = a := hall y (List.mem_cons_of_mem a (mem_dedupFirst.mp hy))
      simp [this]
    rw [this]

/-- C6: resolving the same non-empty host id twice performs at most one
real network call — the second resolution is a cache hit returning the
first result — and after enriching any non-empty batch of meetings all
owned by one host whose lookup returns HTTP 404, every meeting carries
`hostName = "Unknown"`, `hostEmail = ""` and the cache holds exactly the
one fallback entry for that host. -/
theorem hostResolve_idempotent_and_404_cached_once :
    (∀ (hostId : String) (c : HostCache) (f : String → HostFetchOutcome), hostId ≠ "" →
      (getHostInfo hostId (getHostInfo hostId c f).cache f).identity =
        (getHostInfo hostId c f).identity ∧
      (getHostInfo hostId (getHostInfo hostId c f).cache f).called = false ∧
      (if (getHostInfo hostId c f).called then 1 else 0) +
        (if (getHostInfo hostId (getHostInfo hostId c f).cache f).called then 1 else 0) ≤ 1) ∧
    (∀ (ms : List TaggedMeeting) (h1 text : String) (parsed : Except String HostData)
        (f : String → HostFetchOutcome), h1 ≠ "" → ms ≠ [] →
      (∀ m ∈ ms, m.host_id = h1) →
      f h1 = HostFetchOutcome.resp false 404 text parsed →
      (∀ e ∈ (attachHostsToRecordings ms [] f).enriched,
        e.hostName = "Unknown" ∧ e.hostEmail = "") ∧
      (attachHostsToRecordings ms [] f).cache = [(h1, hostFallback)]) := by
  constructor
  · intro hostId c f hid
    have hself := getHostInfo_lookup_self hid c f
    have h2 := getHostInfo_hit hid hself f
    refine ⟨by rw [h2], by rw [h2], ?_⟩
    rw [h2]
    cases (getHostInfo hostId c f).called <;> simp
  · intro ms h1 text parsed f hid hnil hall hf
    have huniq : uniqueHostIds ms = [h1] := by
      unfold uniqueHostIds
      apply dedupFirst_const
      · rcases ms with _ | ⟨m, rest⟩
        · exact absurd rfl hnil
        · have hm : m.host_id = h1 := hall m (List.mem_cons_self m rest)
          apply List.ne_nil_of_mem (a := h1)
          rw [List.mem_filter]
          exact ⟨List.mem_map.mpr ⟨m, List.mem_cons_self m rest, hm⟩, by simpa using hid⟩
      · intro y hy
        rw [List.mem_filter] at hy
        obtain ⟨m, hm, hmy⟩ := List.mem_map.mp hy.1
        rw [← hmy]
        exact hall m hm
    have hget : getHostInfo h1 ([] : HostCache) f =
        ⟨hostFallback, [(h1, hostFallback)], true⟩ := by
      unfold getHostInfo
      rw [if_neg hid]
      show (match f h1 with
        | .thrown _ => (⟨hostFallback, (h1, hostFallback) :: [], true⟩ : HostRes)
        | .resp ok _ _ parsed =>
          if ok then
            match parsed with
            | .error _ => ⟨hostFallback, (h1, hostFallback) :: [], true⟩
            | .ok d =>
              let nm := jsTrim (d.first_name ++ " " ++ d.last_name)
              let host : HostIdentity := ⟨if nm = "" then "Unknown" else nm, d.email⟩
              ⟨host, (h1, host) :: [], true⟩
          else ⟨hostFallback, (h1, hostFallback) :: [], true⟩) = _
      rw [hf]
      rfl
    have hpre : (prewarm f (uniqueHostIds ms) ([] : HostCache)).1 = [(h1, hostFallback)] := by
      rw [huniq]
      simp only [prewarm, hget]
    rw [attachHosts_spec ms [] f]
    refine ⟨?_, hpre⟩
    intro e he
    simp only [List.mem_map] at he
    obtain ⟨m, hm, hme⟩ := he
    have hmh : m.host_id = h1 := hall m hm
    rw [← hme]
    unfold enrichPure hostOf
    rw [hmh, if_neg hid, hpre, lookup_cons_self]
    exact ⟨rfl, rfl⟩

/-! ## BoundedFanoutAggregator (lines 477-592 of `_worker.js`) -/

/-- Parsed body of a per-user `/users/{id}/recordings` response
(`data.meetings` may be absent or not an array: `none`). -/
structure RecPage where
  meetings : Option (List RawMeeting)
deriving DecidableEq

/-- Upstream outcome of one per-user recordings fetch, keyed by user id:
the fetch throws, or yields a response with ok-flag, status, body text and
the result of `JSON.parse(text)` (`none` = unparsable). -/
inductive RecFetchOutcome where
  | thrown (msg : String)
  | resp (ok : Bool) (status : Nat) (text : String) (parsed : Option RecPage)
deriving DecidableEq

/-- An entry of the shared `errors` list.  The three push sites produce
`{userId, userEmail, status, message}` (non-2xx), `{userId, userEmail,
status, message, raw}` (unparsable body) and `{userId, userEmail, error}`
(thrown); absent fields are `none`. -/
structure AggError where
  userId : String
  userEmail : String
  status : Option Nat
  message : Option String
  raw : Option String
  error : Option String
deriving DecidableEq

/-- An entry of the shared `perUserSummary` list. -/
structure PerUserSummary where
  userId : String
  userEmail : String
  meetingCount : Nat
deriving DecidableEq

/-- One iteration of the worker loop body for one claimed user (lines
490-586): the lists of meetings, errors and summaries it appends to the
shared state. -/
def userContribution (fetch : String → RecFetchOutcome) (u : User) :
    List TaggedMeeting × List AggError × List PerUserSummary :=
  match fetch u.id with
  | .thrown msg => ([], [⟨u.id, u.email, none, none, none, some msg⟩], [])
  | .resp ok status text parsed =>
    if ok then
      match parsed with
      | none => ([], [⟨u.id, u.email, some status,
          some "Non-JSON response from recordings endpoint", some text, none⟩], [])
      | some page =>
        let userMeetings := page.meetings.getD []
        (userMeetings.map (tagMeeting u), [],
         [⟨u.id, u.email, userMeetings.length⟩])
    else ([], [⟨u.id, u.email, some status, some text, none, none⟩], [])

/-- Whether a per-user fetch outcome takes one of the three failure
branches (thrown, non-2xx, unparsable body). -/
def recOutcomeFails : RecFetchOutcome → Bool
  | .thrown _ => true
  | .resp ok _ _ parsed => !ok || parsed.isNone

/-- `const concurrency = 5`. -/
def concurrency : Nat := 5

/-- Placeholder user for out-of-range indexing (never reached from states
satisfying the pool invariant). -/
def defaultUser : User := ⟨"", "", "", "", "", 0⟩

/-- `users[i]`. -/
def userAt (users : List User) (i : Nat) : User := users.getD i defaultUser

/-- The contribution of the user at index `i`. -/
def contribAt (fetch : String → RecFetchOutcome) (users : List User) (i : Nat) :
    List TaggedMeeting × List AggError × List PerUserSummary :=
  userContribution fetch (userAt users i)

/-- Status of one worker of the pool: at the loop head, awaiting the fetch
for a claimed index, or finished. -/
inductive WSt where
  | atLoop : WSt
  | fetching : Nat → WSt
  | done : WSt
deriving DecidableEq

/-- State of the cooperative worker pool: the shared cursor `idx`, the
status of each worker, and the shared `meetings`/`errors`/`perUserSummary`
lists. -/
structure PoolState where
  idx : Nat
  ws : List WSt
  ms : List TaggedMeeting
  es : List AggError
  sm : List PerUserSummary
deriving DecidableEq

/-- Initial pool: cursor 0, `Math.min(concurrency, users.length)` workers
at the loop head (line 591), empty shared lists. -/
def initPool (users : List User) : PoolState :=
  ⟨0, List.replicate (min concurrency users.length) WSt.atLoop, [], [], []⟩

/-- One scheduler step: run worker `w` up to its next suspension point.
At the loop head the worker synchronously checks `idx < users.length` and
claims `const i = idx++` (no suspension between check and claim), then
suspends on the fetch; when its fetch completes it appends its
contribution to the shared lists and returns to the loop head; with the
cursor exhausted it finishes.  Indices without a live worker do nothing. -/
def step (users : List User) (fetch : String → RecFetchOutcome)
    (s : PoolState) (w : Nat) : PoolState :=
  match s.ws.get? w with
  | none => s
  | some WSt.done => s
  | some WSt.atLoop =>
    if s.idx < users.length then
      { s with idx := s.idx + 1, ws := s.ws.set w (WSt.fetching s.idx) }
    else
      { s with ws := s.ws.set w WSt.done }
  | some (WSt.fetching i) =>
    let c := contribAt fetch users i
    { s with ws := s.ws.set w WSt.atLoop,
             ms := s.ms ++ c.1, es := s.es ++ c.2.1, sm := s.sm ++ c.2.2 }

/-- Run the pool under an arbitrary interleaving (list of scheduler
choices). -/
def runSched (users : List User) (fetch : String → RecFetchOutcome)
    (sched : List Nat) : PoolState :=
  sched.foldl (step users fetch) (initPool users)

/-- The indices of in-flight fetches. -/
def fetchIdx : WSt → Option Nat
  | WSt.fetching i => some i
  | _ => none

/-- The claimed-but-not-completed indices of a worker list. -/
def inflight (ws : List WSt) : List Nat := ws.filterMap fetchIdx

/-! ### Pool invariant -/

theorem get_set_decomp {α : Type} : ∀ (l : List α) (w : Nat) (a v : α),
    l.get? w = some a →
    l = l.take w ++ a :: l.drop (w + 1) ∧
    l.set w v = l.take w ++ v :: l.drop (w + 1)
  | [], _, _, _, h => by simp at h
  | x :: t, 0, a, v, h => by
    simp at h
    subst h
    exact ⟨rfl, rfl⟩
  | x :: t, w + 1, a, v, h => by
    have ih := get_set_decomp t w a v (by simpa using h)
    constructor
    · show x :: t = x :: (t.take w ++ a :: t.drop (w + 1))
      rw [← ih.1]
    · show x :: t.set w v = x :: (t.take w ++ v :: t.drop (w + 1))
      rw [ih.2]

theorem inflight_append (T D : List WSt) (c : WSt) :
    inflight (T ++ c :: D) = inflight T ++ ((fetchIdx c).toList ++ inflight D) := by
  unfold inflight
  rw [List.filterMap_append]
  congr 1
  cases hc : fetchIdx c <;> simp [List.filterMap_cons, hc]

theorem inflight_replicate_atLoop : ∀ k, inflight (List.replicate k WSt.atLoop) = []
  | 0 => rfl
  | k + 1 => by
    simp only [List.replicate_succ, inflight, List.filterMap_cons]
    exact inflight_replicate_atLoop k

theorem sdiff_insert_range (idx : Nat) (F : Finset Nat) :
    Finset.range (idx + 1) \ insert idx F = Finset.range idx \ F := by
  ext x
  simp only [Finset.mem_sdiff, Finset.mem_range, Finset.mem_insert, not_or]
  constructor
  · rintro ⟨h1, h2, h3⟩
    exact ⟨by omega, h3⟩
  · rintro ⟨h1, h2⟩
    exact ⟨by omega, by omega, h2⟩

theorem range_sdiff_eq_insert {i idx : Nat} {F : Finset Nat} (hlt : i < idx)
    (hniF : i ∉ F) :
    Finset.range idx \ F = insert i (Finset.range idx \ insert i F) := by
  ext x
  simp only [Finset.mem_sdiff, Finset.mem_range, Finset.mem_insert, not_or]
  constructor
  · rintro ⟨h1, h2⟩
    by_cases hx : x = i
    · exact Or.inl hx
    · exact Or.inr ⟨h1, hx, h2⟩
  · rintro (hx | ⟨h1, _, h3⟩)
    · subst hx
      exact ⟨hlt, hniF⟩
    · exact ⟨h1, h3⟩

/-- The completed indices of a pool state: every claimed index whose fetch
is no longer in flight. -/
def doneSet (s : PoolState) : Finset Nat :=
  Finset.range s.idx \ (inflight s.ws).toFinset

/-- Invariant of the worker pool, for all reachable states: the worker
count is `min concurrency users.length`; the cursor never passes the end;
in-flight indices are pairwise distinct claimed indices; a finished worker
implies an exhausted cursor; and the shared lists hold exactly the
contributions of the completed indices. -/
structure PoolInv (users : List User) (fetch : String → RecFetchOutcome)
    (s : PoolState) : Prop where
  wlen : s.ws.length = min concurrency users.length
  idx_le : s.idx ≤ users.length
  nodup : (inflight s.ws).Nodup
  lt_idx : ∀ i ∈ inflight s.ws, i < s.idx
  done_full : WSt.done ∈ s.ws → s.idx = users.length
  ms_eq : (s.ms : Multiset TaggedMeeting) =
    ∑ i in doneSet s, ((contribAt fetch users i).1 : Multiset TaggedMeeting)
  es_eq : (s.es : Multiset AggError) =
    ∑ i in doneSet s, ((contribAt fetch users i).2.1 : Multiset AggError)
  sm_eq : (s.sm : Multiset PerUserSummary) =
    ∑ i in doneSet s, ((contribAt fetch users i).2.2 : Multiset PerUserSummary)

theorem poolInv_init (users : List User) (fetch : String → RecFetchOutcome) :
    PoolInv users fetch (initPool users) := by
  have hin : inflight (initPool users).ws = [] := inflight_replicate_atLoop _
  have hdone : doneSet (initPool users) = ∅ := by
    simp [doneSet, initPool]
  refine ⟨?_, ?_, ?_, ?_, ?_, ?_, ?_, ?_⟩
  · simp [initPool]
  · exact Nat.zero_le _
  · rw [hin]; exact List.nodup_nil
  · rw [hin]; intro i hi; cases hi
  · intro hmem
    have := List.eq_of_mem_replicate hmem
    cases this
  · rw [hdone]; rfl
  · rw [hdone]; rfl
  · rw [hdone]; rfl

theorem poolInv_step (users : List User) (fetch : String → RecFetchOutcome)
    {s : PoolState} (h : PoolInv users fetch s) (w : Nat) :
    PoolInv users fetch (step users fetch s w) := by
  rcases hg : s.ws.get? w with _ | st
  · simp only [step, hg]
    exact h
  rcases st with _ | i | _
  · -- worker at the loop head
    by_cases hlt : s.idx < users.length
    · -- claims the next index and starts a fetch
      obtain ⟨hws, hset⟩ := get_set_decomp s.ws w WSt.atLoop (WSt.fetching s.idx) hg
      simp only [step, hg, if_pos hlt]
      have hinfl_old : inflight s.ws = inflight (s.ws.take w) ++ inflight (s.ws.drop (w + 1)) := by
        conv_lhs => rw [hws]
        rw [inflight_append]
        rfl
      have hinfl_new : inflight (s.ws.set w (WSt.fetching s.idx)) =
          inflight (s.ws.take w) ++ s.idx :: inflight (s.ws.drop (w + 1)) := by
        rw [hset, inflight_append]
        rfl
      have hfresh : s.idx ∉ inflight s.ws :=
        fun hmem => absurd (h.lt_idx _ hmem) (lt_irrefl _)
      have hfresh' : s.idx ∉ inflight (s.ws.take w) ++ inflight (s.ws.drop (w + 1)) := by
        rw [← hinfl_old]; exact hfresh
      have hperm : (inflight (s.ws.take w) ++ s.idx :: inflight (s.ws.drop (w + 1))).Perm
          (s.idx :: (inflight (s.ws.take w) ++ inflight (s.ws.drop (w + 1)))) :=
        List.perm_middle
      have hdone_eq : doneSet ⟨s.idx + 1, s.ws.set w (WSt.fetching s.idx), s.ms, s.es, s.sm⟩ =
          doneSet s := by
        unfold doneSet
        dsimp only
        rw [hinfl_new, List.toFinset_eq_of_perm _ _ hperm, List.toFinset_cons,
          sdiff_insert_range, ← hinfl_old]
      refine ⟨?_, ?_, ?_, ?_, ?_, ?_, ?_, ?_⟩
      · dsimp only
        rw [List.length_set]
        exact h.wlen
      · dsimp only
        omega
      · dsimp only
        rw [hinfl_new, hperm.nodup_iff]
        rw [List.nodup_cons]
        refine ⟨hfresh', ?_⟩
        rw [← hinfl_old]
        exact h.nodup
      · dsimp only
        intro i hi
        rw [hinfl_new] at hi
        rcases List.mem_cons.mp (hperm.mem_iff.mp hi) with h1 | h1
        · omega
        · have := h.lt_idx i (by rw [hinfl_old]; exact h1)
          omega
      · dsimp only
        intro hdone
        rw [hset] at hdone
        simp only [List.mem_append, List.mem_cons] at hdone
        have : WSt.done ∈ s.ws := by
          rw [hws]
          simp only [List.mem_append, List.mem_cons]
          rcases hdone with h1 | h1 | h1
          · exact Or.inl h1
          · cases h1
          · exact Or.inr (Or.inr h1)
        exact absurd (h.done_full this) (by omega)
      · dsimp only
        rw [hdone_eq]
        exact h.ms_eq
      · dsimp only
        rw [hdone_eq]
        exact h.es_eq
      · dsimp only
        rw [hdone_eq]
        exact h.sm_eq
    · -- cursor exhausted: the worker finishes
      obtain ⟨hws, hset⟩ := get_set_decomp s.ws w WSt.atLoop WSt.done hg
      simp only [step, hg, if_neg hlt]
      have hidx : s.idx = users.length := le_antisymm h.idx_le (not_lt.mp hlt)
      have hinfl_old : inflight s.ws = inflight (s.ws.take w) ++ inflight (s.ws.drop (w + 1)) := by
        conv_lhs => rw [hws]
        rw [inflight_append]
        rfl
      have hinfl_new : inflight (s.ws.set w WSt.done) =
          inflight (s.ws.take w) ++ inflight (s.ws.drop (w + 1)) := by
        rw [hset, inflight_append]
        rfl
      have hsame : inflight (s.ws.set w WSt.done) = inflight s.ws := by
        rw [hinfl_new, ← hinfl_old]
      have hdone_eq : doneSet ⟨s.idx, s.ws.set w WSt.done, s.ms, s.es, s.sm⟩ = doneSet s := by
        unfold doneSet
        dsimp only
        rw [hsame]
      refine ⟨?_, h.idx_le, ?_, ?_, ?_, ?_, ?_, ?_⟩
      · dsimp only
        rw [List.length_set]
        exact h.wlen
      · dsimp only
        rw [hsame]
        exact h.nodup
      · dsimp only
        rw [hsame]
        exact h.lt_idx
      · dsimp only
        intro _
        exact hidx
      · dsimp only
        rw [hdone_eq]
        exact h.ms_eq
      · dsimp only
        rw [hdone_eq]
        exact h.es_eq
      · dsimp only
        rw [hdone_eq]
        exact h.sm_eq
  · -- a fetch for index i completes and is appended
    obtain ⟨hws, hset⟩ := get_set_decomp s.ws w (WSt.fetching i) WSt.atLoop hg
    simp only [step, hg]
    have hinfl_old : inflight s.ws =
        inflight (s.ws.take w) ++ i :: inflight (s.ws.drop (w + 1)) := by
      conv_lhs => rw [hws]
      rw [inflight_append]
      rfl
    have hinfl_new : inflight (s.ws.set w WSt.atLoop) =
        inflight (s.ws.take w) ++ inflight (s.ws.drop (w + 1)) := by
      rw [hset, inflight_append]
      rfl
    have hperm : (inflight (s.ws.take w) ++ i :: inflight (s.ws.drop (w + 1))).Perm
        (i :: (inflight (s.ws.take w) ++ inflight (s.ws.drop (w + 1)))) :=
      List.perm_middle
    have hnodupo : (i :: (inflight (s.ws.take w) ++ inflight (s.ws.drop (w + 1)))).Nodup := by
      rw [← hperm.nodup_iff, ← hinfl_old]
      exact h.nodup
    have hi_notin : i ∉ inflight (s.ws.take w) ++ inflight (s.ws.drop (w + 1)) :=
      (List.nodup_cons.mp hnodupo).1
    have hnodup_rest : (inflight (s.ws.take w) ++ inflight (s.ws.drop (w + 1))).Nodup :=
      (List.nodup_cons.mp hnodupo).2
    have hi_mem : i ∈ inflight s.ws := by
      rw [hinfl_old]
      exact List.mem_append.mpr (Or.inr (List.mem_cons_self _ _))
    have hi_lt : i < s.idx := h.lt_idx i hi_mem
    have hiF : i ∉ (inflight (s.ws.take w) ++ inflight (s.ws.drop (w + 1))).toFinset := by
      rw [List.mem_toFinset]
      exact hi_notin
    have htf_old : (inflight s.ws).toFinset =
        insert i (inflight (s.ws.take w) ++ inflight (s.ws.drop (w + 1))).toFinset := by
      rw [hinfl_old, List.toFinset_eq_of_perm _ _ hperm, List.toFinset_cons]
    have hds_new : doneSet ⟨s.idx, s.ws.set w WSt.atLoop,
        s.ms ++ (contribAt fetch users i).1, s.es ++ (contribAt fetch users i).2.1,
        s.sm ++ (contribAt fetch users i).2.2⟩ = insert i (doneSet s) := by
      unfold doneSet
      dsimp only
      rw [hinfl_new, htf_old]
      exact range_sdiff_eq_insert hi_lt hiF
    have hi_nds : i ∉ doneSet s := by
      unfold doneSet
      rw [htf_old]
      simp
    refine ⟨?_, h.idx_le, ?_, ?_, ?_, ?_, ?_, ?_⟩
    · dsimp only
      rw [List.length_set]
      exact h.wlen
    · dsimp only
      rw [hinfl_new]
      exact hnodup_rest
    · dsimp only
      intro j hj
      rw [hinfl_new] at hj
      refine h.lt_idx j ?_
      rw [hinfl_old]
      rcases List.mem_append.mp hj with h1 | h1
      · exact List.mem_append.mpr (Or.inl h1)
      · exact List.mem_append.mpr (Or.inr (List.mem_cons_of_mem _ h1))
    · dsimp only
      intro hdone
      rw [hset] at hdone
      simp only [List.mem_append, List.mem_cons] at hdone
      have : WSt.done ∈ s.ws := by
        rw [hws]
        simp only [List.mem_append, List.mem_cons]
        rcases hdone with h1 | h1 | h1
        · exact Or.inl h1
        · cases h1
        · exact Or.inr (Or.inr h1)
      exact h.done_full this
    · dsimp only
      rw [← Multiset.coe_add, h.ms_eq, hds_new, Finset.sum_insert hi_nds, add_comm]
    · dsimp only
      rw [← Multiset.coe_add, h.es_eq, hds_new, Finset.sum_insert hi_nds, add_comm]
    · dsimp only
      rw [← Multiset.coe_add, h.sm_eq, hds_new, Finset.sum_insert hi_nds, add_comm]
  · simp only [step, hg]
    exact h

theorem poolInv_foldl (users : List User) (fetch : String → RecFetchOutcome) :
    ∀ (sched : List Nat) (s : PoolState), PoolInv users fetch s →
      PoolInv users fetch (sched.foldl (step users fetch) s)
  | [], _, h => h
  | w :: sched, s, h =>
    poolInv_foldl users fetch sched (step users fetch s w) (poolInv_step users fetch h w)

theorem poolInv_runSched (users : List User) (fetch : String → RecFetchOutcome)
    (sched : List Nat) : PoolInv users fetch (runSched users fetch sched) :=
  poolInv_foldl users fetch sched (initPool users) (poolInv_init users fetch)

/-- Characterization of a pool state in which every worker has finished:
the cursor has exhausted the user list and the shared lists hold, as
multisets, exactly the per-index contributions of every user. -/
theorem pool_complete (users : List User) (fetch : String → RecFetchOutcome)
    {s : PoolState} (hinv : PoolInv users fetch s)
    (hdone : ∀ st ∈ s.ws, st = WSt.done) :
    s.idx = users.length ∧
    (s.ms : Multiset TaggedMeeting) =
      ∑ i in Finset.range users.length,
        ((contribAt fetch users i).1 : Multiset TaggedMeeting) ∧
    (s.es : Multiset AggError) =
      ∑ i in Finset.range users.length,
        ((contribAt fetch users i).2.1 : Multiset AggError) ∧
    (s.sm : Multiset PerUserSummary) =
      ∑ i in Finset.range users.length,
        ((contribAt fetch users i).2.2 : Multiset PerUserSummary) := by
  have hin : inflight s.ws = [] := by
    rw [inflight, List.filterMap_eq_nil_iff]
    intro st hst
    rw [hdone st hst]
    rfl
  have hidx : s.idx = users.length := by
    rcases hws : s.ws with _ | ⟨st, rest⟩
    · have h0 := hinv.wlen
      rw [hws] at h0
      simp only [List.length_nil] at h0
      have hn : users.length = 0 := by
        rcases Nat.le_total concurrency users.length with hc | hc
        · rw [min_eq_left hc] at h0
          simp [concurrency] at h0
        · rw [min_eq_right hc] at h0
          omega
      have := hinv.idx_le
      omega
    · have hst : st = WSt.done := hdone st (by rw [hws]; exact List.mem_cons_self st rest)
      have hmem : WSt.done ∈ s.ws := by
        rw [hws, ← hst]
        exact List.mem_cons_self st rest
      exact hinv.done_full hmem
  have hds : doneSet s = Finset.range users.length := by
    unfold doneSet
    rw [hidx, hin]
    simp
  exact ⟨hidx, by rw [hinv.ms_eq, hds], by rw [hinv.es_eq, hds], by rw [hinv.sm_eq, hds]⟩

/-- C4: under every scheduler interleaving, the pool starts exactly
`min(concurrency, users.length)` workers, never has more than
`concurrency` (= 5) per-user fetches in flight simultaneously, and the
in-flight fetches are for pairwise distinct indices already claimed from
the shared cursor. -/
theorem pool_bounded_concurrency (users : List User)
    (fetch : String → RecFetchOutcome) (sched : List Nat) :
    (initPool users).ws.length = min concurrency users.length ∧
    (inflight (runSched users fetch sched).ws).length ≤ concurrency ∧
    (inflight (runSched users fetch sched).ws).Nodup ∧
    ∀ i ∈ inflight (runSched users fetch sched).ws, i < (runSched users fetch sched).idx := by
  have hinv := poolInv_runSched users fetch sched
  refine ⟨by simp [initPool], ?_, hinv.nodup, hinv.lt_idx⟩
  calc (inflight (runSched users fetch sched).ws).length
      ≤ (runSched users fetch sched).ws.length := List.length_filterMap_le _ _
    _ = min concurrency users.length := hinv.wlen
    _ ≤ concurrency := Nat.min_le_left _ _

/-! ### Per-user contribution lemmas -/

theorem contrib_success {fetch : String → RecFetchOutcome} {u : User}
    {st : Nat} {text : String} {page : RecPage}
    (hf : fetch u.id = RecFetchOutcome.resp true st text (some page)) :
    userContribution fetch u =
      ((page.meetings.getD []).map (tagMeeting u), [],
       [⟨u.id, u.email, (page.meetings.getD []).length⟩]) := by
  simp [userContribution, hf]

theorem contrib_no_error {fetch : String → RecFetchOutcome} {u : User}
    (h : recOutcomeFails (fetch u.id) = false) :
    (userContribution fetch u).2.1 = [] ∧
    ∃ page : RecPage, (userContribution fetch u).1 =
      (page.meetings.getD []).map (tagMeeting u) := by
  cases hfu : fetch u.id with
  | thrown m => rw [hfu] at h; simp [recOutcomeFails] at h
  | resp ok st text parsed =>
    rw [hfu] at h
    cases ok with
    | false => simp [recOutcomeFails] at h
    | true =>
      cases parsed with
      | none => simp [recOutcomeFails] at h
      | some page => exact ⟨by simp [userContribution, hfu], page, by simp [userContribution, hfu]⟩

theorem contrib_fail {fetch : String → RecFetchOutcome} {u : User}
    (hf : recOutcomeFails (fetch u.id) = true) :
    ∃ e : AggError, (userContribution fetch u).1 = [] ∧
      (userContribution fetch u).2.1 = [e] ∧
      e.userId = u.id ∧ e.userEmail = u.email := by
  cases hfu : fetch u.id with
  | thrown m =>
    exact ⟨⟨u.id, u.email, none, none, none, some m⟩,
      by simp [userContribution, hfu], by simp [userContribution, hfu], rfl, rfl⟩
  | resp ok st text parsed =>
    cases ok with
    | false =>
      exact ⟨⟨u.id, u.email, some st, some text, none, none⟩,
        by simp [userContribution, hfu], by simp [userContribution, hfu], rfl, rfl⟩
    | true =>
      cases parsed with
      | none =>
        exact ⟨⟨u.id, u.email, some st,
            some "Non-JSON response from recordings endpoint", some text, none⟩,
          by simp [userContribution, hfu], by simp [userContribution, hfu], rfl, rfl⟩
      | some page =>
        rw [hfu] at hf
        simp [recOutcomeFails] at hf

/-- C1: under every interleaving that runs the pool to completion, if
exactly one user's fetch fails (non-2xx, unparsable body, or thrown) and
all others succeed, the shared error list holds exactly one
`AggregationError` carrying the failing user's id and email, and the
shared meetings list holds exactly the contributions of the other N−1
users: the failing worker continued and no sibling worker was aborted. -/
theorem aggregation_single_failure_isolated
    (users : List User) (fetch : String → RecFetchOutcome) (sched : List Nat)
    (j : Nat) (hN : 1 < users.length) (hj : j < users.length)
    (hfail : recOutcomeFails (fetch (userAt users j).id) = true)
    (hok : ∀ i, i < users.length → i ≠ j →
      recOutcomeFails (fetch (userAt users i).id) = false)
    (hdone : ∀ st ∈ (runSched users fetch sched).ws, st = WSt.done) :
    (∃ e : AggError, (runSched users fetch sched).es = [e] ∧
      e.userId = (userAt users j).id ∧ e.userEmail = (userAt users j).email) ∧
    ((runSched users fetch sched).ms : Multiset TaggedMeeting) =
      ∑ i in (Finset.range users.length).erase j,
        ((contribAt fetch users i).1 : Multiset TaggedMeeting) := by
  obtain ⟨hidx, hms, hes, hsm⟩ :=
    pool_complete users fetch (poolInv_runSched users fetch sched) hdone
  obtain ⟨e, hc1, hc2, hc3, hc4⟩ := contrib_fail hfail
  have hrange : Finset.range users.length =
      insert j ((Finset.range users.length).erase j) :=
    (Finset.insert_erase (Finset.mem_range.mpr hj)).symm
  have hnotmem : j ∉ (Finset.range users.length).erase j := Finset.not_mem_erase j _
  have herase_zero : ∀ i ∈ (Finset.range users.length).erase j,
      ((contribAt fetch users i).2.1 : Multiset AggError) = 0 := by
    intro i hi
    obtain ⟨hne, hilt⟩ := Finset.mem_erase.mp hi
    have := (contrib_no_error (hok i (Finset.mem_range.mp hilt) hne)).1
    rw [contribAt, this]
    rfl
  constructor
  · refine ⟨e, ?_, hc3, hc4⟩
    have : ((runSched users fetch sched).es : Multiset AggError) = ([e] : List AggError) := by
      rw [hes, hrange, Finset.sum_insert hnotmem, Finset.sum_eq_zero herase_zero,
        add_zero, contribAt, hc2]
    exact List.perm_singleton.mp (Multiset.coe_eq_coe.mp this)
  · rw [hms]
    nth_rewrite 1 [hrange]
    rw [Finset.sum_insert hnotmem, contribAt, hc1]
    show (([] : List TaggedMeeting) : Multiset TaggedMeeting) + _ = _
    rw [Multiset.coe_nil, zero_add]

/-- C2 (amended): under every interleaving that runs the pool to
completion with every per-user fetch succeeding, the aggregate equals (as
a multiset) the union of each user's returned recordings tagged by
`tagMeeting`, no error is recorded, and every aggregated record carries
the owning user's email (`owner_email`) and display name (`owner_name`) —
the tags the code actually attaches (there is no user-id tag; see the
counterexample). -/
theorem aggregation_all_success_union
    (users : List User) (fetch : String → RecFetchOutcome) (sched : List Nat)
    (stOf : Nat → Nat) (txtOf : Nat → String) (pageOf : Nat → RecPage)
    (hsu : ∀ i, i < users.length → fetch (userAt users i).id =
      RecFetchOutcome.resp true (stOf i) (txtOf i) (some (pageOf i)))
    (hdone : ∀ st ∈ (runSched users fetch sched).ws, st = WSt.done) :
    ((runSched users fetch sched).ms : Multiset TaggedMeeting) =
      ∑ i in Finset.range users.length,
        ((((pageOf i).meetings.getD []).map (tagMeeting (userAt users i)) :
          List TaggedMeeting) : Multiset TaggedMeeting) ∧
    (runSched users fetch sched).es = [] ∧
    ∀ m_ ∈ (runSched users fetch sched).ms, ∃ i, i < users.length ∧
      m_.owner_email = (userAt users i).email ∧
      m_.owner_name = ownerNameOf (userAt users i) := by
  obtain ⟨hidx, hms, hes, hsm⟩ :=
    pool_complete users fetch (poolInv_runSched users fetch sched) hdone
  have hcontrib : ∀ i ∈ Finset.range users.length,
      ((contribAt fetch users i).1 : Multiset TaggedMeeting) =
      ((((pageOf i).meetings.getD []).map (tagMeeting (userAt users i)) :
        List TaggedMeeting) : Multiset TaggedMeeting) := by
    intro i hi
    rw [contribAt, contrib_success (hsu i (Finset.mem_range.mp hi))]
  have hmseq : ((runSched users fetch sched).ms : Multiset TaggedMeeting) =
      ∑ i in Finset.range users.length,
        ((((pageOf i).meetings.getD []).map (tagMeeting (userAt users i)) :
          List TaggedMeeting) : Multiset TaggedMeeting) := by
    rw [hms]
    exact Finset.sum_congr rfl hcontrib
  refine ⟨hmseq, ?_, ?_⟩
  · have hzero : ((runSched users fetch sched).es : Multiset AggError) = 0 := by
      rw [hes]
      refine Finset.sum_eq_zero ?_
      intro i hi
      rw [contribAt, (contrib_no_error ?_).1]
      · rfl
      · rw [hsu i (Finset.mem_range.mp hi)]
        rfl
    exact (Multiset.coe_eq_zero _).mp hzero
  · intro m_ hmem
    have : m_ ∈ ((runSched users fetch sched).ms : Multiset TaggedMeeting) := hmem
    rw [hmseq] at this
    obtain ⟨i, hi, hmi⟩ := Multiset.mem_sum.mp this
    obtain ⟨raw, _, hraw⟩ := List.mem_map.mp hmi
    refine ⟨i, Finset.mem_range.mp hi, ?_, ?_⟩ <;> rw [← hraw] <;> rfl

/-! ### C2 counterexample: no `ownerId` tag on aggregated records -/

/-- Every string-valued field of a pushed record (including nested
recording-file fields and the optional primary-file fields): the complete
set of places a user-id tag could live. -/
def taggedStrings (m : TaggedMeeting) : List String :=
  [m.account_id, m.host_id, m.uuid, m.topic, m.start_time, m.auto_delete_date,
   m.autoDeleteDate, m.recording_play_passcode, m.owner_email, m.owner_name] ++
  m.primary_file_type.toList ++ m.primary_file_extension.toList ++
  (m.recording_files.map (fun f =>
    [f.id, f.file_type, f.file_extension, f.recording_type, f.recording_start,
     f.recording_end, f.play_url, f.download_url, f.status])).flatten

/-- A concrete enumerated user. -/
def cexUser : User := ⟨"UID-7f3", "ann@example.com", "Ann", "Lee", "active", 1⟩

/-- A concrete upstream meeting returned for `cexUser` whose `host_id`
differs from the user's id. -/
def cexRaw : RawMeeting :=
  ⟨"acct-1", 30, "host-9", 12345, "uuid-AA==", "Weekly sync", "2026-01-05T10:00:00Z",
   1, 1000, 2, false, "", "",
   [⟨"file-1", "MP4", "mp4", 500, "shared_screen_with_speaker_view",
     "2026-01-05T10:00:00Z", "2026-01-05T10:30:00Z", "https://zoom.us/rec/play/x",
     "https://zoom.us/rec/download/x", "completed"⟩]⟩

/-- A fetch oracle under which every per-user fetch succeeds with the one
meeting above. -/
def cexFetch : String → RecFetchOutcome :=
  fun _ => RecFetchOutcome.resp true 200 "{}" (some ⟨some [cexRaw]⟩)

/-- C2 counterexample: a completed aggregation over one user whose single
record is tagged with the user's email and display name, yet every
string-valued field of the pushed record differs from the (non-empty)
enumerating user's id — the code never attaches an `ownerId`. -/
theorem aggregated_record_lacks_owner_id :
    (∀ st ∈ (runSched [cexUser] cexFetch [0, 0, 0]).ws, st = WSt.done) ∧
    (runSched [cexUser] cexFetch [0, 0, 0]).ms = [tagMeeting cexUser cexRaw] ∧
    (tagMeeting cexUser cexRaw).owner_email = cexUser.email ∧
    cexUser.id ≠ "" ∧
    ∀ s_ ∈ taggedStrings (tagMeeting cexUser cexRaw), s_ ≠ cexUser.id := by
  refine ⟨?_, ?_, rfl, ?_, ?_⟩
  · decide
  · rfl
  · decide
  · decide

/-! ## UserEnumerator and RequestHandler (lines 372-682 of `_worker.js`) -/

/-- Parsed body of one `/users` directory page (`usersData.users` may be
absent/non-array; `next_page_token` empty when absent). -/
structure UsersPage where
  users : Option (List User)
  next_page_token : String
deriving DecidableEq

/-- Upstream outcome of one directory page fetch: thrown, or a response
with ok-flag, status, body text and the result of `usersRes.json()`
(`Except.error` = the json parse throws, uncaught inside the loop). -/
inductive PageOutcome where
  | thrown (msg : String)
  | page (ok : Bool) (status : Nat) (text : String) (parsed : Except String UsersPage)
deriving DecidableEq

/-- Result of the user-enumeration loop: a thrown fault (propagates to the
handler's catch), an early non-2xx page return, or the concatenated users. -/
inductive EnumResult where
  | thrown (msg : String)
  | badPage (status : Nat) (text : String)
  | ok (users : List User)
deriving DecidableEq

/-- The `do..while(nextPageToken)` enumeration loop (lines 389-422),
driven by the successive upstream page outcomes. -/
def listActiveUsers : List PageOutcome → List User → EnumResult
  | [], acc => EnumResult.ok acc
  | PageOutcome.thrown m :: _, _ => EnumResult.thrown m
  | PageOutcome.page ok st text parsed :: rest, acc =>
    if ok then
      match parsed with
      | Except.error m => EnumResult.thrown m
      | Except.ok pd =>
        let acc2 := acc ++ pd.users.getD []
        if pd.next_page_token = "" then EnumResult.ok acc2
        else listActiveUsers rest acc2
    else EnumResult.badPage st text

/-- Aggregated output of the fan-out: the three shared lists plus the
number of per-user recordings fetches issued (one per enumerated user). -/
structure AggOut where
  meetings : List TaggedMeeting
  errors : List AggError
  summary : List PerUserSummary
  recCalls : Nat
deriving DecidableEq

/-- The fan-out under its canonical (sequential) schedule: one worker-body
iteration per user in order.  `pool_complete` shows every complete
interleaving of the pool produces the same multisets of meetings, errors
and summaries. -/
def aggregateSeq (fetch : String → RecFetchOutcome) : List User → AggOut
  | [] => ⟨[], [], [], 0⟩
  | u :: rest =>
    let c := userContribution fetch u
    let r := aggregateSeq fetch rest
    ⟨c.1 ++ r.meetings, c.2.1 ++ r.errors, c.2.2 ++ r.summary, 1 + r.recCalls⟩

/-- The `{error: true, status, message}` JSON envelope. -/
structure ErrBody where
  error : Bool
  status : Nat
  message : String
deriving DecidableEq

/-- The per-user projection of the `debug=users` response (line 431). -/
structure UserProj where
  id : String
  email : String
  first_name : String
  last_name : String
  type : Nat
  status : String
deriving DecidableEq

def userProj (u : User) : UserProj :=
  ⟨u.id, u.email, u.first_name, u.last_name, u.type, u.status⟩

/-- The normal-mode response body (`respBody`, lines 651-659, and the
empty-users early return, lines 453-466; `errorsOpt` models the `_errors`
key that is attached only when the error list is non-empty). -/
structure MeetingsBody where
  fromQ : String
  toQ : String
  next_page_token : String
  page_count : Nat
  page_size : Nat
  total_records : Nat
  meetings : List EnrichedMeeting
  errorsOpt : Option (List AggError)
deriving DecidableEq

/-- The `debug=users` response body. -/
structure UsersDebugBody where
  fromQ : String
  toQ : String
  total_users : Nat
  users : List UserProj
deriving DecidableEq

/-- The `debug=user-recordings` response body. -/
structure RecDebugBody where
  fromQ : String
  toQ : String
  total_users : Nat
  per_user : List PerUserSummary
  errorsOpt : Option (List AggError)
deriving DecidableEq

/-- A JSON response of the handler: its HTTP status and one of the four
body shapes the code serializes. -/
inductive Response where
  | meetingsResp (status : Nat) (body : MeetingsBody)
  | errorResp (status : Nat) (body : ErrBody)
  | usersDebugResp (status : Nat) (body : UsersDebugBody)
  | recDebugResp (status : Nat) (body : RecDebugBody)
deriving DecidableEq

/-- The request environment: query parameters plus the outcome oracles for
the token exchange, the directory pages, the per-user recordings fetches
(keyed by user id) and the host lookups (keyed by host id). -/
structure Env where
  fromQ : String
  toQ : String
  debug : String
  ownerParam : String
  topicParam : String
  qParam : String
  tokenRes : Except String String
  userPages : List PageOutcome
  recFetch : String → RecFetchOutcome
  hostFetch : String → HostFetchOutcome

/-- What one handler invocation produces: the response, the number of
per-user recordings fetches, the number of host-lookup fetches, and the
host cache afterwards. -/
structure HandlerResult where
  resp : Response
  recCalls : Nat
  hostCalls : Nat
  cache : HostCache
deriving DecidableEq

/-- The body of the `try` block of `handleGetMeetingRecordings`:
`Except.error` is a fault thrown somewhere in the pipeline. -/
def tryHandle (cache0 : HostCache) (env : Env) : Except String HandlerResult :=
  match env.tokenRes with
  | Except.error m => Except.error m
  | Except.ok _token =>
    match listActiveUsers env.userPages [] with
    | EnumResult.thrown m => Except.error m
    | EnumResult.badPage st text =>
      Except.ok ⟨Response.errorResp st ⟨true, st, "Failed to list users: " ++ text⟩,
        0, 0, cache0⟩
    | EnumResult.ok users =>
      if env.debug = "users" then
        Except.ok ⟨Response.usersDebugResp 200
          ⟨env.fromQ, env.toQ, users.length, users.map userProj⟩, 0, 0, cache0⟩
      else if users.length = 0 then
        Except.ok ⟨Response.meetingsResp 200
          ⟨env.fromQ, env.toQ, "", 0, 0, 0, [], none⟩, 0, 0, cache0⟩
      else
        let agg := aggregateSeq env.recFetch users
        if env.debug = "user-recordings" then
          Except.ok ⟨Response.recDebugResp 200
            ⟨env.fromQ, env.toQ, users.length, agg.summary,
             if agg.errors.isEmpty then none else some agg.errors⟩,
            agg.recCalls, 0, cache0⟩
        else
          let att := attachHostsToRecordings agg.meetings cache0 env.hostFetch
          let filtered := applyFilters env.ownerParam env.topicParam env.qParam att.enriched
          Except.ok ⟨Response.meetingsResp 200
            ⟨env.fromQ, env.toQ, "",
             (if filtered.length = 0 then 0 else 1), filtered.length, filtered.length,
             filtered, (if agg.errors.isEmpty then none else some agg.errors)⟩,
            agg.recCalls, att.calls, att.cache⟩

/-- `handleGetMeetingRecordings`: the whole pipeline under the outer
`try/catch`; any fault becomes the structured 500 envelope. -/
def handleGetMeetingRecordings (cache0 : HostCache) (env : Env) : HandlerResult :=
  match tryHandle cache0 env with
  | Except.ok r => r
  | Except.error m => ⟨Response.errorResp 500 ⟨true, 500, m⟩, 0, 0, cache0⟩

/-- C8: every fault thrown anywhere inside the pipeline (token exchange,
user enumeration — the stages that can throw in the model) is caught at
the handler boundary and converted into the structured
`{error: true, status: 500, message}` JSON envelope with HTTP status 500;
the handler is a total function and never re-raises. -/
theorem handler_converts_any_fault_to_500
    (cache0 : HostCache) (env : Env) (m : String)
    (hthrow : tryHandle cache0 env = Except.error m) :
    handleGetMeetingRecordings cache0 env =
      ⟨Response.errorResp 500 ⟨true, 500, m⟩, 0, 0, cache0⟩ := by
  simp [handleGetMeetingRecordings, hthrow]

/-- C9: when enumeration succeeds with zero active users and no debug mode
is requested, the handler returns HTTP 200 with an empty meetings array,
`total_records = 0`, `page_count = 0`, `page_size = 0` and an empty
`next_page_token`, and issues no per-user recordings fetch and no host
lookup. -/
theorem emptyUsers_early_return
    (cache0 : HostCache) (env : Env) (tok : String)
    (htok : env.tokenRes = Except.ok tok)
    (henum : listActiveUsers env.userPages [] = EnumResult.ok [])
    (hdebug : env.debug = "") :
    handleGetMeetingRecordings cache0 env =
      ⟨Response.meetingsResp 200 ⟨env.fromQ, env.toQ, "", 0, 0, 0, [], none⟩,
        0, 0, cache0⟩ := by
  simp [handleGetMeetingRecordings, tryHandle, htok, henum, hdebug]

/-- C10: every normal-mode (meetings-shaped) response of the handler has
HTTP status 200, an empty `next_page_token`, `page_size` and
`total_records` both equal to the number of returned meetings, and
`page_count` 1 for a non-empty result and 0 for an empty one: the whole
aggregate is always delivered as a single page. -/
theorem normal_response_single_page_invariant
    (cache0 : HostCache) (env : Env) (st : Nat) (b : MeetingsBody)
    (hresp : (handleGetMeetingRecordings cache0 env).resp = Response.meetingsResp st b) :
    st = 200 ∧ b.next_page_token = "" ∧ b.page_size = b.meetings.length ∧
    b.total_records = b.meetings.length ∧
    b.page_count = (if b.meetings.length = 0 then 0 else 1) := by
  cases htok : env.tokenRes with
  | error m =>
    simp [handleGetMeetingRecordings, tryHandle, htok] at hresp
  | ok tok =>
    cases henum : listActiveUsers env.userPages [] with
    | thrown m =>
      simp [handleGetMeetingRecordings, tryHandle, htok, henum] at hresp
    | badPage st2 text =>
      simp [handleGetMeetingRecordings, tryHandle, htok, henum] at hresp
    | ok users =>
      by_cases hd1 : env.debug = "users"
      · simp [handleGetMeetingRecordings, tryHandle, htok, henum, hd1] at hresp
      · by_cases hz : users.length = 0
        · simp [handleGetMeetingRecordings, tryHandle, htok, henum, hd1, hz] at hresp
          obtain ⟨hst, hb⟩ := hresp
          subst hb
          exact ⟨hst.symm, rfl, rfl, rfl, rfl⟩
        · by_cases hd2 : env.debug = "user-recordings"
          · simp [handleGetMeetingRecordings, tryHandle, htok, henum, hd1, hz, hd2] at hresp
          · simp [handleGetMeetingRecordings, tryHandle, htok, henum, hd1, hz, hd2] at hresp
            obtain ⟨hst, hb⟩ := hresp
            subst hb
            refine ⟨hst.symm, rfl, rfl, rfl, ?_⟩
            simp [List.length_eq_zero]

/-! ## Concrete witnesses -/

def w1Users : List User :=
  [⟨"u0", "a@example.com", "Al", "Ox", "active", 1⟩,
   ⟨"u1", "b@example.com", "Bo", "Pyne", "active", 1⟩]

def w1Fetch : String → RecFetchOutcome := fun uid =>
  if uid = "u1" then RecFetchOutcome.resp false 500 "upstream boom" none
  else RecFetchOutcome.resp true 200 "{}" (some ⟨some [cexRaw]⟩)

theorem aggregation_single_failure_isolated_witness :
    (∃ e : AggError, (runSched w1Users w1Fetch [0, 1, 0, 1, 0, 1]).es = [e] ∧
      e.userId = (userAt w1Users 1).id ∧ e.userEmail = (userAt w1Users 1).email) ∧
    ((runSched w1Users w1Fetch [0, 1, 0, 1, 0, 1]).ms : Multiset TaggedMeeting) =
      ∑ i in (Finset.range w1Users.length).erase 1,
        ((contribAt w1Fetch w1Users i).1 : Multiset TaggedMeeting) :=
  aggregation_single_failure_isolated w1Users w1Fetch [0, 1, 0, 1, 0, 1] 1
    (by decide) (by decide) (by decide) (by decide) (by decide)

def w2Page : Nat → RecPage := fun _ => ⟨some [cexRaw]⟩

theorem aggregation_all_success_union_witness :
    ((runSched [cexUser] cexFetch [0, 0, 0]).ms : Multiset TaggedMeeting) =
      ∑ i in Finset.range [cexUser].length,
        ((((w2Page i).meetings.getD []).map (tagMeeting (userAt [cexUser] i)) :
          List TaggedMeeting) : Multiset TaggedMeeting) ∧
    (runSched [cexUser] cexFetch [0, 0, 0]).es = [] ∧
    ∀ m_ ∈ (runSched [cexUser] cexFetch [0, 0, 0]).ms, ∃ i, i < [cexUser].length ∧
      m_.owner_email = (userAt [cexUser] i).email ∧
      m_.owner_name = ownerNameOf (userAt [cexUser] i) :=
  aggregation_all_success_union [cexUser] cexFetch [0, 0, 0]
    (fun _ => 200) (fun _ => "{}") w2Page (by decide) (by decide)

def wHostThrow : String → HostFetchOutcome := fun _ => HostFetchOutcome.thrown "net down"

theorem hostLookup_failure_falls_back_and_caches_witness :
    (getHostInfo "h1" [] wHostThrow).identity = hostFallback ∧
    (getHostInfo "h1" [] wHostThrow).cache.lookup "h1" = some hostFallback ∧
    (getHostInfo "h1" [] wHostThrow).called = true ∧
    (getHostInfo "h1" (getHostInfo "h1" [] wHostThrow).cache wHostThrow).called = false ∧
    (getHostInfo "h1" (getHostInfo "h1" [] wHostThrow).cache wHostThrow).identity = hostFallback :=
  hostLookup_failure_falls_back_and_caches "h1" [] wHostThrow
    (by decide) (by decide) (by decide)

def wHost404 : String → HostFetchOutcome :=
  fun _ => HostFetchOutcome.resp false 404 "user not found" (Except.ok ⟨"", "", ""⟩)

theorem hostResolve_idempotent_and_404_cached_once_witness :
    ((getHostInfo "h7" (getHostInfo "h7" [] wHostThrow).cache wHostThrow).identity =
        (getHostInfo "h7" [] wHostThrow).identity ∧
      (getHostInfo "h7" (getHostInfo "h7" [] wHostThrow).cache wHostThrow).called = false ∧
      (if (getHostInfo "h7" [] wHostThrow).called then 1 else 0) +
        (if (getHostInfo "h7" (getHostInfo "h7" [] wHostThrow).cache wHostThrow).called
          then 1 else 0) ≤ 1) ∧
    ((∀ e ∈ (attachHostsToRecordings (List.replicate 50 (tagMeeting cexUser cexRaw))
        [] wHost404).enriched, e.hostName = "Unknown" ∧ e.hostEmail = "") ∧
      (attachHostsToRecordings (List.replicate 50 (tagMeeting cexUser cexRaw))
        [] wHost404).cache = [("host-9", hostFallback)]) :=
  ⟨hostResolve_idempotent_and_404_cached_once.1 "h7" [] wHostThrow (by decide),
   hostResolve_idempotent_and_404_cached_once.2
     (List.replicate 50 (tagMeeting cexUser cexRaw)) "host-9" "user not found"
     (Except.ok ⟨"", "", ""⟩) wHost404 (by decide) (by decide) (by decide) (by decide)⟩

def wEnvThrow : Env :=
  ⟨"2026-01-01", "2026-01-31", "", "", "", "",
   Except.error "Failed to get Zoom token (500): upstream", [],
   fun _ => RecFetchOutcome.thrown "unused", fun _ => HostFetchOutcome.thrown "unused"⟩

theorem handler_converts_any_fault_to_500_witness :
    handleGetMeetingRecordings [] wEnvThrow =
      ⟨Response.errorResp 500 ⟨true, 500, "Failed to get Zoom token (500): upstream"⟩,
        0, 0, []⟩ :=
  handler_converts_any_fault_to_500 [] wEnvThrow
    "Failed to get Zoom token (500): upstream" rfl

def wEnvEmpty : Env :=
  ⟨"2026-02-01", "2026-02-28", "", "", "", "",
   Except.ok "tok",
   [PageOutcome.page true 200 "" (Except.ok ⟨some [], ""⟩)],
   fun _ => RecFetchOutcome.thrown "unused", fun _ => HostFetchOutcome.thrown "unused"⟩

theorem emptyUsers_early_return_witness :
    handleGetMeetingRecordings [] wEnvEmpty =
      ⟨Response.meetingsResp 200
        ⟨wEnvEmpty.fromQ, wEnvEmpty.toQ, "", 0, 0, 0, [], none⟩, 0, 0, []⟩ :=
  emptyUsers_early_return [] wEnvEmpty "tok" rfl (by decide) rfl

def wEnvNormal : Env :=
  ⟨"2026-03-01", "2026-03-31", "", "", "", "",
   Except.ok "tok",
   [PageOutcome.page true 200 "" (Except.ok ⟨some [cexUser], ""⟩)],
   fun _ => RecFetchOutcome.resp true 200 "{}" (some ⟨some []⟩),
   fun _ => HostFetchOutcome.thrown "unused"⟩

def wBodyNormal : MeetingsBody :=
  ⟨"2026-03-01", "2026-03-31", "", 0, 0, 0, [], none⟩

theorem normal_response_single_page_invariant_witness :
    (200 : Nat) = 200 ∧ wBodyNormal.next_page_token = "" ∧
    wBodyNormal.page_size = wBodyNormal.meetings.length ∧
    wBodyNormal.total_records = wBodyNormal.meetings.length ∧
    wBodyNormal.page_count = (if wBodyNormal.meetings.length = 0 then 0 else 1) :=
  normal_response_single_page_invariant [] wEnvNormal 200 wBodyNormal (by decide)
